import Mathlib

/-!
Shallow embedding of the TODO-list application in `src/node.js`.

Modelling conventions:
  * JS `Date` values are epoch milliseconds, modelled as `Int`.
  * `Date.now().toString(36) + Math.random().toString(36).substr(2)` (the id
    generator in the `Task` constructor, line 4) is an environment-supplied
    string: every place the JS code runs `new Task(...)` takes the generated
    id as an explicit argument (or draws it from an id stream), since its
    value depends on the clock and on `Math.random()`.
  * `localStorage` under the key `"tasks"` is a field `storage` of the
    manager state.  `JSON.stringify`/`JSON.parse` round-trip the stored
    fields (`id`, `text`, `completed`, ISO date strings) faithfully, so a
    well-formed snapshot is modelled as the list of stored records; a
    malformed snapshot (anything `JSON.parse`/`.map` would throw on) is the
    constructor `Snapshot.malformed`.  A thrown JS exception is
    `Except.error JsError.exn`.
  * DOM rendering and event wiring are external collaborators and are not
    modelled; `renderTasks` (lines 102-152) contributes only its computation
    of the displayed list (`tasksToShow`, lines 105-119).
-/

namespace Todo

/-- `class Task` (src/node.js lines 2-15): fields of a task. -/
structure Task where
  id : String
  text : String
  completed : Bool
  createdAt : Int
  completedAt : Option Int
deriving DecidableEq, Repr

/-- `Task.getCompletionTime` (lines 11-14):
`if (!this.completed || !this.completedAt) return null; return this.completedAt - this.createdAt`. -/
def Task.getCompletionTime (t : Task) : Option Int :=
  match t.completedAt with
  | none => none
  | some c => if t.completed then some (c - t.createdAt) else none

/-- The contents of `localStorage.getItem("tasks")` (JS source uses single quotes) when present: either a
well-formed serialized task list, or data on which `JSON.parse` (or the
subsequent `.map`) would throw. -/
inductive Snapshot where
  | valid (records : List Task)
  | malformed
deriving DecidableEq, Repr

/-- A JS exception escaping a call (e.g. from `JSON.parse`). -/
inductive JsError where
  | exn
deriving DecidableEq, Repr

/-- The mutable state of `class TaskManager` (lines 18-222): the task array,
the current filter string, and the `localStorage` cell it reads and writes.
DOM element fields are external collaborators and are not part of the state. -/
structure TaskManager where
  tasks : List Task
  currentFilter : String
  storage : Option Snapshot
deriving DecidableEq, Repr

/-- `saveTasks` (lines 203-205): `localStorage.setItem(..., JSON.stringify(this.tasks))` under the tasks key. -/
def saveTasks (st : TaskManager) : TaskManager :=
  { st with storage := some (Snapshot.valid st.tasks) }

/-- JS `String.prototype.trim`: strip whitespace from both ends of the
string.  Defined on the character list so that it is kernel-computable
(`String.trim` from the Lean library does not reduce on literals). -/
def jsTrim (s : String) : String :=
  String.mk (((s.data.dropWhile Char.isWhitespace).reverse.dropWhile
    Char.isWhitespace).reverse)

/-- `addTask` (lines 50-60).  `genId` is the id the `Task` constructor would
generate, `now` the clock value used for `createdAt`, `rawText` the input
field contents.  Returns the new state and whether `saveTasks` ran (the
returned `Bool` records whether a persistence write occurred). -/
def addTask (st : TaskManager) (genId : String) (now : Int) (rawText : String) :
    TaskManager × Bool :=
  let text := jsTrim rawText
  if text = "" then (st, false)
  else
    let newTask : Task :=
      { id := genId, text := text, completed := false, createdAt := now, completedAt := none }
    (saveTasks { st with tasks := st.tasks ++ [newTask] }, true)

/-- The mutation `toggleTaskCompletion` performs on the found task
(lines 67-68): flip `completed`; set `completedAt` to `now` if now
completed, else to `null`. -/
def applyToggle (now : Int) (t : Task) : Task :=
  let c := !t.completed
  { t with completed := c, completedAt := if c then some now else none }

/-- In JS, `this.tasks.find(...)` returns the first matching task object and
the toggle mutates that object in place: the first task whose id matches is
replaced by its toggled version, all other tasks are untouched. -/
def toggleFirst (now : Int) (taskId : String) : List Task → List Task
  | [] => []
  | t :: ts =>
    if t.id == taskId then applyToggle now t :: ts
    else t :: toggleFirst now taskId ts

/-- `toggleTaskCompletion` (lines 63-73): find the task by id; if absent,
return (`if (!task) return`, no write); otherwise toggle it and persist. -/
def toggleTaskCompletion (st : TaskManager) (now : Int) (taskId : String) :
    TaskManager × Bool :=
  match st.tasks.find? (fun t => t.id == taskId) with
  | none => (st, false)
  | some _ => (saveTasks { st with tasks := toggleFirst now taskId st.tasks }, true)

/-- `deleteTask` (lines 76-81): `this.tasks = this.tasks.filter(task => task.id !== taskId)`
then persist. -/
def deleteTask (st : TaskManager) (taskId : String) : TaskManager × Bool :=
  (saveTasks { st with tasks := st.tasks.filter (fun t => t.id != taskId) }, true)

/-- `clearCompletedTasks` (lines 84-88): keep the non-completed tasks, persist. -/
def clearCompletedTasks (st : TaskManager) : TaskManager × Bool :=
  (saveTasks { st with tasks := st.tasks.filter (fun t => !t.completed) }, true)

/-- `filterTasks` (lines 91-99): set `currentFilter`; no persistence write. -/
def filterTasks (st : TaskManager) (filter : String) : TaskManager :=
  { st with currentFilter := filter }

/-- The `switch (this.currentFilter)` of `renderTasks` (lines 107-116):
which tasks are selected for display before sorting. -/
def selectedTasks (st : TaskManager) : List Task :=
  match st.currentFilter with
  | "completed" => st.tasks.filter (fun t => t.completed)
  | "pending" => st.tasks.filter (fun t => !t.completed)
  | _ => st.tasks

/-- The comparator `(a, b) => b.createdAt - a.createdAt` (line 119) orders
`a` before `b` exactly when `b.createdAt ≤ a.createdAt`. -/
def byCreatedAtDesc (a b : Task) : Bool :=
  decide (b.createdAt ≤ a.createdAt)

/-- The list `renderTasks` displays (lines 105-119): the filtered selection,
sorted newest-created-first.  `Array.prototype.sort` is stable (ES2019), so
it is modelled by the stable `List.mergeSort`. -/
def tasksToShow (st : TaskManager) : List Task :=
  (selectedTasks st).mergeSort byCreatedAtDesc

/-- `formatDuration` (lines 168-183).  The JS argument is a non-negative
number of milliseconds (`Nat`); `if (!ms) return` with an empty result is the `ms = 0` test
(the falsy numeric argument). -/
def formatDuration (ms : Nat) : String :=
  if ms = 0 then ""
  else
    let seconds := ms / 1000 % 60
    let minutes := ms / (1000 * 60) % 60
    let hours := ms / (1000 * 60 * 60) % 24
    let days := ms / (1000 * 60 * 60 * 24)
    let parts : List String := []
    let parts := if days > 0 then parts ++ [toString days ++ "d"] else parts
    let parts := if hours > 0 then parts ++ [toString hours ++ "h"] else parts
    let parts := if minutes > 0 then parts ++ [toString minutes ++ "m"] else parts
    let parts := if seconds > 0 then parts ++ [toString seconds ++ "s"] else parts
    String.intercalate " " parts

/-- The description of the duration formatter in the specification (§4.2),
for comparison with the implementation: decompose into days/hours/minutes/
seconds (each modulo its parent unit, days uncapped), drop zero components,
join the remaining unit strings largest-to-smallest with single spaces. -/
def formatDurationSpec (ms : Nat) : String :=
  if ms = 0 then ""
  else
    let units : List (Nat × String) :=
      [(ms / (1000 * 60 * 60 * 24), "d"),
       (ms / (1000 * 60 * 60) % 24, "h"),
       (ms / (1000 * 60) % 60, "m"),
       (ms / 1000 % 60, "s")]
    String.intercalate " " ((units.filter (fun u => decide (u.1 > 0))).map
      (fun u => toString u.1 ++ u.2))

/-- The completion time a task contributes inside the reduction in `updateFastestTaskInfo`, where the surrounding filter guarantees `getCompletionTime()` is
non-null (so the `getD` default is never reached). -/
def ctime (t : Task) : Int := t.getCompletionTime.getD 0

/-- The reducer `(prev, current) => prev.getCompletionTime() < current.getCompletionTime() ? prev : current`
(lines 194-196).  On a tie it keeps `current`. -/
def pickFastest (prev current : Task) : Task :=
  if ctime prev < ctime current then prev else current

/-- The fastest-task query of `updateFastestTaskInfo` (lines 186-200):
filter to completed tasks with a non-null completion time; if none, report
none; otherwise reduce with `pickFastest` (JS `reduce` with no initial value
starts from the first element). -/
def fastestCompletedTask (st : TaskManager) : Option Task :=
  let completedTasks :=
    st.tasks.filter (fun t => t.completed && t.getCompletionTime != none)
  match completedTasks with
  | [] => none
  | first :: rest => some (rest.foldl pickFastest first)

/-- `loadTasks` (lines 208-221).  Absent snapshot: the task array is left as
it is.  Malformed snapshot: `JSON.parse` (or `.map` on a non-array) throws
and nothing catches it.  Valid snapshot: each stored record is passed to the
`Task` constructor, which copies `text`, `completed`, `createdAt`,
`completedAt` (`new Date(...)` restores the same instant) but generates a
fresh id; record number `i` consumes `freshIds i`. -/
def loadTasks (st : TaskManager) (freshIds : Nat → String) :
    Except JsError TaskManager :=
  match st.storage with
  | none => Except.ok st
  | some Snapshot.malformed => Except.error JsError.exn
  | some (Snapshot.valid parsedTasks) =>
      Except.ok { st with
        tasks := parsedTasks.enum.map (fun p => { p.2 with id := freshIds p.1 }) }

/-- The observable data of a task apart from its id. -/
def taskData (t : Task) : String × Bool × Int × Option Int :=
  (t.text, t.completed, t.createdAt, t.completedAt)

/-- One user-level or lifecycle operation on the manager, carrying the
values the code reads from its environment (the clock, the input field, the
id of the clicked task).  Generated ids are not carried here: they are drawn from
a single id stream threaded through `applyOp`, one string per `new Task(...)`
executed. -/
inductive Op where
  | addTask (now : Int) (text : String)
  | toggleTask (now : Int) (taskId : String)
  | deleteTask (taskId : String)
  | clearCompleted
  | setFilter (filter : String)
  | save
  | load
deriving DecidableEq, Repr

/-- Run one operation.  `env` is the stream of id strings the `Task`
generator of the constructor produces; `k` counts how many have been consumed so
far.  `Op.load` mirrors `loadTasks` with the fresh ids drawn from `env` at
offset `k` (one per record the snapshot holds). -/
def applyOp (env : Nat → String) :
    TaskManager × Nat → Op → Except JsError (TaskManager × Nat)
  | (st, k), Op.addTask now text =>
      if jsTrim text = "" then Except.ok (st, k)
      else Except.ok ((addTask st (env k) now text).1, k + 1)
  | (st, k), Op.toggleTask now taskId =>
      Except.ok ((toggleTaskCompletion st now taskId).1, k)
  | (st, k), Op.deleteTask taskId =>
      Except.ok ((deleteTask st taskId).1, k)
  | (st, k), Op.clearCompleted =>
      Except.ok ((clearCompletedTasks st).1, k)
  | (st, k), Op.setFilter filter =>
      Except.ok (filterTasks st filter, k)
  | (st, k), Op.save =>
      Except.ok (saveTasks st, k)
  | (st, k), Op.load =>
      match st.storage with
      | none => Except.ok (st, k)
      | some Snapshot.malformed => Except.error JsError.exn
      | some (Snapshot.valid parsedTasks) =>
          Except.ok ({ st with
            tasks := parsedTasks.enum.map (fun p => { p.2 with id := env (k + p.1) }) },
            k + parsedTasks.length)

/-- Run a sequence of operations, stopping at the first thrown exception. -/
def applyOps (env : Nat → String) (s : TaskManager × Nat) :
    List Op → Except JsError (TaskManager × Nat)
  | [] => Except.ok s
  | op :: ops =>
    match applyOp env s op with
    | Except.error e => Except.error e
    | Except.ok s2 => applyOps env s2 ops

/-- The state the `TaskManager` constructor builds when `localStorage` holds
nothing: empty task array, filter all, no snapshot. -/
def initialManager : TaskManager :=
  { tasks := [], currentFilter := "all", storage := none }

/-- A manager state reachable from the empty store by some run of the
operations, for some behaviour of the id-generation environment. -/
def Reachable (st : TaskManager) : Prop :=
  ∃ env ops k, applyOps env (initialManager, 0) ops = Except.ok (st, k)

/-- The completion invariant on one task: `completedAt` is present iff
`completed` is true. -/
def completionInv (t : Task) : Prop :=
  t.completedAt.isSome = t.completed

/-- The completion invariant on a manager state: every live task and every
task record in the persisted snapshot satisfies `completionInv`. -/
def managerCompletionInv (st : TaskManager) : Prop :=
  (∀ t ∈ st.tasks, completionInv t) ∧
  (∀ recs, st.storage = some (Snapshot.valid recs) → ∀ t ∈ recs, completionInv t)

/-- The ids of a task list, in order. -/
def idsOf (ts : List Task) : List String := ts.map Task.id

/-- The id invariant relative to an id stream `env` after `k` ids have been
consumed: live ids and snapshot ids are duplicate-free and all come from the
consumed prefix of the stream. -/
def managerIdInv (env : Nat → String) (k : Nat) (st : TaskManager) : Prop :=
  ((idsOf st.tasks).Nodup ∧ ∀ i ∈ idsOf st.tasks, ∃ j, j < k ∧ env j = i) ∧
  (∀ recs, st.storage = some (Snapshot.valid recs) →
    (idsOf recs).Nodup ∧ ∀ i ∈ idsOf recs, ∃ j, j < k ∧ env j = i)

/-! ## Duration formatter (claims C5 and C10) -/

/-- C5: for every non-negative millisecond input, `formatDuration` decomposes
it into days/hours/minutes/seconds (modulo the parent unit, days uncapped),
omits zero units, and joins the rest largest-to-smallest with single spaces
(the behaviour described by `formatDurationSpec`); in particular
`formatDuration 90061000 = "1d 1h 1m 1s"` and `formatDuration 0 = ""`. -/
theorem formatDuration_correct :
    (∀ ms : Nat, formatDuration ms = formatDurationSpec ms) ∧
    formatDuration 90061000 = "1d 1h 1m 1s" ∧ formatDuration 0 = "" := by
  refine ⟨fun ms => ?_, by decide, by decide⟩
  unfold formatDuration formatDurationSpec
  by_cases h0 : ms = 0
  · simp [h0]
  · simp only [if_neg h0]
    by_cases hd : ms / (1000 * 60 * 60 * 24) > 0 <;>
      by_cases hh : ms / (1000 * 60 * 60) % 24 > 0 <;>
        by_cases hm : ms / (1000 * 60) % 60 > 0 <;>
          by_cases hs : ms / 1000 % 60 > 0 <;>
            simp [List.filter, hd, hh, hm, hs]

/-- C10: every strictly positive duration below one second has all four
components zero, so `formatDuration` returns the empty string. -/
theorem formatDuration_subsecond (ms : Nat) (h1 : 0 < ms) (h2 : ms < 1000) :
    formatDuration ms = "" := by
  have hne : ¬ ms = 0 := by omega
  have d1 : ms / 1000 = 0 := Nat.div_eq_of_lt (by omega)
  have d2 : ms / (1000 * 60) = 0 := Nat.div_eq_of_lt (by omega)
  have d3 : ms / (1000 * 60 * 60) = 0 := Nat.div_eq_of_lt (by omega)
  have d4 : ms / (1000 * 60 * 60 * 24) = 0 := Nat.div_eq_of_lt (by omega)
  simp [formatDuration, hne, d1, d2, d3, d4]
  rfl

/-- Witness for C10 at the concrete input 999. -/
theorem formatDuration_subsecond_check :
    0 < 999 ∧ 999 < 1000 ∧ formatDuration 999 = "" :=
  ⟨by decide, by decide, formatDuration_subsecond 999 (by decide) (by decide)⟩

/-! ## Validation no-ops (claim C7) -/

/-- C7: `addTask` with text that trims to empty, and `toggleTaskCompletion`
with an id no task carries, leave the whole state (task array and storage)
unchanged and perform no persistence write (the returned flag is `false`),
with no exception. -/
theorem validation_noops (st : TaskManager) (genId : String) (now : Int)
    (rawText taskId : String) (hempty : jsTrim rawText = "")
    (hmissing : ∀ t ∈ st.tasks, t.id ≠ taskId) :
    addTask st genId now rawText = (st, false) ∧
    toggleTaskCompletion st now taskId = (st, false) := by
  constructor
  · unfold addTask
    simp [hempty]
  · unfold toggleTaskCompletion
    have hnone : st.tasks.find? (fun t => t.id == taskId) = none := by
      rw [List.find?_eq_none]
      intro x hx
      simpa using hmissing x hx
    rw [hnone]

/-- A one-task store used as the concrete input of several witnesses. -/
def exStoreA : TaskManager :=
  { tasks := [{ id := "a", text := "buy milk", completed := false,
                createdAt := 10, completedAt := none }],
    currentFilter := "all", storage := none }

/-- Witness for C7: blank input and an unknown id on a concrete store. -/
theorem validation_noops_check :
    jsTrim "   " = "" ∧
    addTask exStoreA "g" 0 "   " = (exStoreA, false) ∧
    toggleTaskCompletion exStoreA 0 "zzz" = (exStoreA, false) :=
  ⟨by decide,
    (validation_noops exStoreA "g" 0 "   " "zzz" (by decide) (by decide)).1,
    (validation_noops exStoreA "g" 0 "   " "zzz" (by decide) (by decide)).2⟩

/-! ## Persistence read failure (claim C2) -/

/-- Counterexample to C2: on a malformed snapshot, `JSON.parse` throws and
`loadTasks` propagates the exception instead of recovering. -/
theorem loadTasks_malformed_throws :
    loadTasks { tasks := [], currentFilter := "all",
                storage := some Snapshot.malformed } (fun _ => "fresh") =
      Except.error JsError.exn := rfl

/-- C2 as amended: with no snapshot present `loadTasks` returns normally and
leaves the task collection as it was (empty at startup); on a malformed
snapshot the `JSON.parse` exception escapes to the caller. -/
theorem loadTasks_failure_behaviour (st : TaskManager) (freshIds : Nat → String) :
    (st.storage = none → loadTasks st freshIds = Except.ok st) ∧
    (st.storage = some Snapshot.malformed →
      loadTasks st freshIds = Except.error JsError.exn) := by
  constructor <;> intro h <;> simp [loadTasks, h]

/-- Witness for C2 (amended) at concrete stores. -/
theorem loadTasks_failure_behaviour_check :
    loadTasks initialManager (fun _ => "x") = Except.ok initialManager ∧
    loadTasks { tasks := [], currentFilter := "all",
                storage := some Snapshot.malformed } (fun _ => "x") =
      Except.error JsError.exn :=
  ⟨(loadTasks_failure_behaviour initialManager (fun _ => "x")).1 rfl,
   (loadTasks_failure_behaviour
      { tasks := [], currentFilter := "all", storage := some Snapshot.malformed }
      (fun _ => "x")).2 rfl⟩

/-! ## Serialization round-trip (claim C1) -/

/-- Counterexample to C1: save then load on a store whose one task has id
`"a"` yields a task whose id is the freshly generated string, not `"a"`:
the `Task` constructor run by `loadTasks` regenerates ids. -/
theorem save_load_changes_id :
    (loadTasks (saveTasks exStoreA) (fun _ => "b")).toOption.map
        (fun s => s.tasks.map Task.id) = some ["b"] ∧
    exStoreA.tasks.map Task.id = ["a"] ∧ ("b" : String) ≠ "a" :=
  ⟨by decide, by decide, by decide⟩

/-- Reloading a serialized list keeps every field except the id. -/
theorem map_taskData_reload (freshIds : Nat → String) (l : List Task) :
    (l.enum.map (fun p => { p.2 with id := freshIds p.1 })).map taskData =
      l.map taskData := by
  rw [List.map_map]
  have h : (taskData ∘ fun p : Nat × Task => { p.2 with id := freshIds p.1 }) =
      taskData ∘ Prod.snd := rfl
  rw [h, ← List.map_map, List.enum_map_snd]

theorem map_id_reload (freshIds : Nat → String) (l : List Task) :
    (l.enum.map (fun p => { p.2 with id := freshIds p.1 })).map Task.id =
      (List.range l.length).map freshIds := by
  rw [List.map_map]
  have h : (Task.id ∘ fun p : Nat × Task => { p.2 with id := freshIds p.1 }) =
      freshIds ∘ Prod.fst := rfl
  rw [h, ← List.map_map, List.enum_map_fst]

/-- C1 as amended: save followed by load restores a task collection with the
same `text`, `completed`, `createdAt` and `completedAt` values in the same
order (in particular an empty store round-trips to an empty store), but each
id is regenerated by the `Task` constructor rather than preserved. -/
theorem save_load_roundtrip (st : TaskManager) (freshIds : Nat → String) :
    (loadTasks (saveTasks st) freshIds).toOption.map
        (fun s => s.tasks.map taskData) = some (st.tasks.map taskData) ∧
    (loadTasks (saveTasks st) freshIds).toOption.map
        (fun s => s.tasks.map Task.id) =
      some ((List.range st.tasks.length).map freshIds) := by
  have h : loadTasks (saveTasks st) freshIds = Except.ok
      { tasks := st.tasks.enum.map (fun p => { p.2 with id := freshIds p.1 }),
        currentFilter := st.currentFilter,
        storage := some (Snapshot.valid st.tasks) } := rfl
  rw [h]
  constructor
  · show some ((st.tasks.enum.map
        (fun p => { p.2 with id := freshIds p.1 })).map taskData) = _
    rw [map_taskData_reload]
  · show some ((st.tasks.enum.map
        (fun p => { p.2 with id := freshIds p.1 })).map Task.id) = _
    rw [map_id_reload]

/-! ## Toggling twice (claim C6) -/

/-- Toggling never changes the id of a task. -/
theorem applyToggle_id (now : Int) (t : Task) : (applyToggle now t).id = t.id := rfl

/-- If `find?` locates task `t`, then after `toggleFirst` the same search
locates the toggled version of `t`. -/
theorem find?_toggleFirst (now : Int) (taskId : String) :
    ∀ (ts : List Task) (t : Task),
      ts.find? (fun x => x.id == taskId) = some t →
      (toggleFirst now taskId ts).find? (fun x => x.id == taskId) =
        some (applyToggle now t) := by
  intro ts
  induction ts with
  | nil => intro t h; simp at h
  | cons hd tl ih =>
    intro t h
    cases hbe : hd.id == taskId with
    | true =>
      simp only [List.find?, hbe] at h
      injection h with h
      subst h
      simp [toggleFirst, List.find?, applyToggle_id, hbe]
    | false =>
      simp only [List.find?, hbe] at h
      simp only [toggleFirst, hbe, Bool.false_eq_true, if_false]
      simp only [List.find?, hbe]
      exact ih t h

/-- When the searched id is found, `toggleTaskCompletion` takes its
some-branch: it toggles the first matching task and persists. -/
theorem toggleTaskCompletion_found (st : TaskManager) (now : Int) (taskId : String)
    (t : Task) (hfind : st.tasks.find? (fun x => x.id == taskId) = some t) :
    toggleTaskCompletion st now taskId =
      (saveTasks { st with tasks := toggleFirst now taskId st.tasks }, true) := by
  unfold toggleTaskCompletion
  rw [hfind]

/-- C6: toggling the task with id `taskId` twice (at clock values `now1`,
`now2`) restores `completed`; it restores `completedAt` to `none` when it
started as `none` (under the data-model invariant that a task with no
`completedAt` is not completed, which holds in every reachable store); and
when the task started completed, the second toggle regenerates `completedAt`
from the current clock (`some now2`), so the original timestamp does not
round-trip. -/
theorem toggle_twice (st : TaskManager) (now1 now2 : Int) (taskId : String) (t : Task)
    (hfind : st.tasks.find? (fun x => x.id == taskId) = some t)
    (hinv : t.completedAt = none → t.completed = false) :
    ((toggleTaskCompletion (toggleTaskCompletion st now1 taskId).1 now2 taskId).1).tasks.find?
        (fun x => x.id == taskId) = some (applyToggle now2 (applyToggle now1 t)) ∧
    (applyToggle now2 (applyToggle now1 t)).completed = t.completed ∧
    (t.completedAt = none → (applyToggle now2 (applyToggle now1 t)).completedAt = none) ∧
    (t.completed = true → (applyToggle now2 (applyToggle now1 t)).completedAt = some now2) := by
  have e1 := toggleTaskCompletion_found st now1 taskId t hfind
  have hfind1 : (toggleTaskCompletion st now1 taskId).1.tasks.find?
      (fun x => x.id == taskId) = some (applyToggle now1 t) := by
    rw [e1]
    exact find?_toggleFirst now1 taskId st.tasks t hfind
  have e2 := toggleTaskCompletion_found (toggleTaskCompletion st now1 taskId).1
    now2 taskId (applyToggle now1 t) hfind1
  refine ⟨?_, ?_, ?_, ?_⟩
  · rw [e2, e1]
    exact find?_toggleFirst now2 taskId _ _
      (find?_toggleFirst now1 taskId st.tasks t hfind)
  · simp [applyToggle]
  · intro hnone
    have hf := hinv hnone
    simp [applyToggle, hf]
  · intro hc
    simp [applyToggle, hc]

/-- Witness for C6 on a concrete one-task store. -/
theorem toggle_twice_check :
    ((toggleTaskCompletion (toggleTaskCompletion exStoreA 20 "a").1 30 "a").1).tasks.find?
        (fun x => x.id == "a") =
      some (applyToggle 30 (applyToggle 20
        { id := "a", text := "buy milk", completed := false,
          createdAt := 10, completedAt := none })) ∧
    (applyToggle 30 (applyToggle 20
        { id := "a", text := "buy milk", completed := false,
          createdAt := 10, completedAt := none })).completed = false ∧
    (applyToggle 30 (applyToggle 20
        { id := "a", text := "buy milk", completed := false,
          createdAt := 10, completedAt := none })).completedAt = none := by
  have h := toggle_twice exStoreA 20 30 "a"
    { id := "a", text := "buy milk", completed := false,
      createdAt := 10, completedAt := none }
    (by decide) (fun _ => rfl)
  exact ⟨h.1, h.2.1, h.2.2.1 rfl⟩

/-! ## Visible tasks: filtering, sorting, stability (claim C3) -/

theorem byCreatedAtDesc_trans : ∀ a b c : Task,
    byCreatedAtDesc a b = true → byCreatedAtDesc b c = true →
    byCreatedAtDesc a c = true := by
  intro a b c hab hbc
  simp only [byCreatedAtDesc, decide_eq_true_eq] at hab hbc ⊢
  omega

theorem byCreatedAtDesc_total : ∀ a b : Task,
    (byCreatedAtDesc a b || byCreatedAtDesc b a) = true := by
  intro a b
  simp only [byCreatedAtDesc, Bool.or_eq_true, decide_eq_true_eq]
  omega

/-- Stability of the displayed order: restricted to any set of tasks that
are pairwise tied under the comparator, the displayed list coincides with
the pre-sort selection, i.e. ties keep their original relative order. -/
theorem tasksToShow_stable_filter (st : TaskManager) (p : Task → Bool)
    (hp : ∀ a b, p a = true → p b = true → byCreatedAtDesc a b = true) :
    (tasksToShow st).filter p = (selectedTasks st).filter p := by
  have hpair : ((selectedTasks st).filter p).Pairwise
      (fun a b => byCreatedAtDesc a b = true) :=
    List.pairwise_of_forall_mem_list (fun a ha b hb =>
      hp a b (List.of_mem_filter ha) (List.of_mem_filter hb))
  have hsub : ((selectedTasks st).filter p).Sublist (tasksToShow st) :=
    List.sublist_mergeSort byCreatedAtDesc_trans byCreatedAtDesc_total hpair
      (List.filter_sublist _)
  have heq : ((selectedTasks st).filter p).filter p = (selectedTasks st).filter p := by
    rw [List.filter_eq_self]
    intro a ha
    exact List.of_mem_filter ha
  have hsub2 : ((selectedTasks st).filter p).Sublist ((tasksToShow st).filter p) := by
    have h1 := List.Sublist.filter p hsub
    rwa [heq] at h1
  have hperm : ((tasksToShow st).filter p).Perm ((selectedTasks st).filter p) :=
    (List.mergeSort_perm (selectedTasks st) byCreatedAtDesc).filter p
  exact (List.Sublist.eq_of_length hsub2 hperm.length_eq.symm).symm

theorem selectedTasks_completed (st : TaskManager)
    (h : st.currentFilter = "completed") :
    selectedTasks st = st.tasks.filter (fun t => t.completed) := by
  unfold selectedTasks
  rw [h]
  rfl

theorem selectedTasks_pending (st : TaskManager)
    (h : st.currentFilter = "pending") :
    selectedTasks st = st.tasks.filter (fun t => !t.completed) := by
  unfold selectedTasks
  rw [h]
  rfl

theorem selectedTasks_all (st : TaskManager) (h : st.currentFilter = "all") :
    selectedTasks st = st.tasks := by
  unfold selectedTasks
  rw [h]
  rfl

/-- C3: the displayed list contains exactly the tasks matching the current
filter (`completed`: only completed tasks; `pending`: only non-completed
tasks; `all`: every task), is sorted by `createdAt` descending, and tasks
with equal `createdAt` keep their original relative order (stable sort). -/
theorem visibleTasks_spec (st : TaskManager) :
    (st.currentFilter = "completed" →
      (tasksToShow st).Perm (st.tasks.filter (fun t => t.completed))) ∧
    (st.currentFilter = "pending" →
      (tasksToShow st).Perm (st.tasks.filter (fun t => !t.completed))) ∧
    (st.currentFilter = "all" → (tasksToShow st).Perm st.tasks) ∧
    (tasksToShow st).Pairwise (fun a b => b.createdAt ≤ a.createdAt) ∧
    (∀ c : Int, (tasksToShow st).filter (fun t => t.createdAt == c) =
      (selectedTasks st).filter (fun t => t.createdAt == c)) := by
  refine ⟨?_, ?_, ?_, ?_, ?_⟩
  · intro h
    unfold tasksToShow
    rw [selectedTasks_completed st h]
    exact List.mergeSort_perm _ _
  · intro h
    unfold tasksToShow
    rw [selectedTasks_pending st h]
    exact List.mergeSort_perm _ _
  · intro h
    unfold tasksToShow
    rw [selectedTasks_all st h]
    exact List.mergeSort_perm _ _
  · have hs := List.sorted_mergeSort byCreatedAtDesc_trans byCreatedAtDesc_total
      (selectedTasks st)
    exact hs.imp (fun hab => by simpa [byCreatedAtDesc] using hab)
  · intro c
    refine tasksToShow_stable_filter st (fun t => t.createdAt == c) ?_
    intro a b ha hb
    simp only [beq_iff_eq] at ha hb
    simp [byCreatedAtDesc, ha, hb]

/-- A pending and a completed task used by the C3 witness stores. -/
def exTaskP : Task :=
  { id := "p", text := "pending one", completed := false,
    createdAt := 1, completedAt := none }

def exTaskC : Task :=
  { id := "c", text := "done one", completed := true,
    createdAt := 2, completedAt := some 3 }

def exStoreCompleted : TaskManager :=
  { tasks := [exTaskP, exTaskC], currentFilter := "completed", storage := none }

def exStorePending : TaskManager :=
  { tasks := [exTaskP, exTaskC], currentFilter := "pending", storage := none }

def exStoreAll : TaskManager :=
  { tasks := [exTaskP, exTaskC], currentFilter := "all", storage := none }

/-- Witness for C3 instantiating each filter value on concrete stores. -/
theorem visibleTasks_spec_check :
    (tasksToShow exStoreCompleted).Perm
      (exStoreCompleted.tasks.filter (fun t => t.completed)) ∧
    (tasksToShow exStorePending).Perm
      (exStorePending.tasks.filter (fun t => !t.completed)) ∧
    (tasksToShow exStoreAll).Perm exStoreAll.tasks :=
  ⟨(visibleTasks_spec exStoreCompleted).1 rfl,
   (visibleTasks_spec exStorePending).2.1 rfl,
   (visibleTasks_spec exStoreAll).2.2.1 rfl⟩

/-! ## Fastest-task query (claim C4) -/

/-- A defined completion time forces `completed` to be true. -/
theorem getCompletionTime_some_completed (t : Task) (x : Int)
    (h : t.getCompletionTime = some x) : t.completed = true := by
  unfold Task.getCompletionTime at h
  cases hca : t.completedAt with
  | none => rw [hca] at h; simp at h
  | some c =>
    rw [hca] at h
    by_cases hcpl : t.completed = true
    · exact hcpl
    · simp [hcpl] at h

/-- `ctime` agrees with a defined completion time. -/
theorem ctime_eq_of_some (t : Task) (x : Int)
    (h : t.getCompletionTime = some x) : ctime t = x := by
  unfold ctime
  rw [h]
  rfl

/-- How the reduce of `updateFastestTaskInfo` behaves: folding `pickFastest`
over `rest` from `a` returns either `a` itself, with everything in `rest`
strictly slower, or an element of `rest` that is no slower than `a` and than
everything before it, and strictly faster than everything after it (on a tie
the reducer keeps the later element). -/
theorem foldl_pickFastest_spec :
    ∀ (rest : List Task) (a : Task),
      (rest.foldl pickFastest a = a ∧ ∀ t ∈ rest, ctime a < ctime t) ∨
      (∃ l1 l2, rest = l1 ++ rest.foldl pickFastest a :: l2 ∧
        ctime (rest.foldl pickFastest a) ≤ ctime a ∧
        (∀ t ∈ l1, ctime (rest.foldl pickFastest a) ≤ ctime t) ∧
        (∀ t ∈ l2, ctime (rest.foldl pickFastest a) < ctime t)) := by
  intro rest
  induction rest with
  | nil =>
    intro a
    left
    exact ⟨rfl, by simp⟩
  | cons c rest ih =>
    intro a
    rw [List.foldl_cons]
    by_cases hc : ctime a < ctime c
    · have hpick : pickFastest a c = a := by simp [pickFastest, hc]
      rw [hpick]
      rcases ih a with ⟨heq, hall⟩ | ⟨l1, l2, hsplit, hle, hbefore, hafter⟩
      · left
        refine ⟨heq, ?_⟩
        intro t ht
        rcases List.mem_cons.mp ht with rfl | ht
        · exact hc
        · exact hall t ht
      · right
        refine ⟨c :: l1, l2, ?_, hle, ?_, hafter⟩
        · rw [List.cons_append, ← hsplit]
        · intro t ht
          rcases List.mem_cons.mp ht with rfl | ht
          · exact le_trans hle (le_of_lt hc)
          · exact hbefore t ht
    · have hpick : pickFastest a c = c := by simp [pickFastest, hc]
      rw [hpick]
      rcases ih c with ⟨heq, hall⟩ | ⟨l1, l2, hsplit, hle, hbefore, hafter⟩
      · right
        refine ⟨[], rest, ?_, ?_, by simp, ?_⟩
        · rw [heq]
          rfl
        · rw [heq]
          omega
        · rw [heq]
          exact hall
      · right
        refine ⟨c :: l1, l2, ?_, ?_, ?_, hafter⟩
        · rw [List.cons_append, ← hsplit]
        · omega
        · intro t ht
          rcases List.mem_cons.mp ht with rfl | ht
          · exact hle
          · exact hbefore t ht

/-- C4 as amended: when no task has a defined completion time the query
returns none (and conversely); when it returns a task, that task is in the
store, has a defined completion time that is minimal among all defined
completion times, and among tasks tying for the minimum it is the LAST one
in iteration order (everything after it in the filtered order is strictly
slower), because the reducer keeps `current` on ties. -/
theorem fastestCompletedTask_spec (st : TaskManager) :
    ((∀ t ∈ st.tasks, t.getCompletionTime = none) →
      fastestCompletedTask st = none) ∧
    (fastestCompletedTask st = none → ∀ t ∈ st.tasks, t.getCompletionTime = none) ∧
    (∀ r, fastestCompletedTask st = some r →
      r ∈ st.tasks ∧ r.getCompletionTime ≠ none ∧
      (∀ t ∈ st.tasks, ∀ x, t.getCompletionTime = some x → ctime r ≤ x) ∧
      (∃ l1 l2,
        st.tasks.filter (fun t => t.completed && t.getCompletionTime != none) =
          l1 ++ r :: l2 ∧
        (∀ t ∈ l1, ctime r ≤ ctime t) ∧ (∀ t ∈ l2, ctime r < ctime t))) := by
  have hdef : fastestCompletedTask st =
      (match st.tasks.filter (fun t => t.completed && t.getCompletionTime != none) with
        | [] => none
        | first :: rest => some (rest.foldl pickFastest first)) := rfl
  have hPnone : ∀ t : Task, t.getCompletionTime = none →
      (t.completed && t.getCompletionTime != none) = false := by
    intro t h
    rw [h]
    simp
  have hPsome : ∀ t : Task, t.getCompletionTime ≠ none →
      (t.completed && t.getCompletionTime != none) = true := by
    intro t h
    rcases Option.ne_none_iff_exists.mp h with ⟨x, hx⟩
    rw [getCompletionTime_some_completed t x hx.symm]
    simp [h]
  refine ⟨?_, ?_, ?_⟩
  · intro h
    rw [hdef]
    have hnil : st.tasks.filter (fun t => t.completed && t.getCompletionTime != none) = [] := by
      rw [List.filter_eq_nil_iff]
      intro t ht
      rw [hPnone t (h t ht)]
      simp
    rw [hnil]
  · intro h t ht
    by_contra hne
    cases hL : st.tasks.filter (fun t => t.completed && t.getCompletionTime != none) with
    | nil =>
      have := (List.filter_eq_nil_iff.mp hL) t ht
      exact this (hPsome t hne)
    | cons f rest =>
      rw [hdef, hL] at h
      simp at h
  · intro r hr
    cases hL : st.tasks.filter (fun t => t.completed && t.getCompletionTime != none) with
    | nil =>
      rw [hdef, hL] at hr
      simp at hr
    | cons f rest =>
      rw [hdef, hL] at hr
      have hreq : rest.foldl pickFastest f = r := by
        injection hr
      have hsplit : ∃ l1 l2,
          f :: rest = l1 ++ r :: l2 ∧
          (∀ t ∈ l1, ctime r ≤ ctime t) ∧ (∀ t ∈ l2, ctime r < ctime t) := by
        rcases foldl_pickFastest_spec rest f with ⟨heq, hall⟩ | ⟨l1, l2, hs, hle, hb, ha⟩
        · refine ⟨[], rest, ?_, by simp, ?_⟩
          · rw [← hreq, heq]
            rfl
          · intro t ht
            rw [← hreq, heq]
            exact hall t ht
        · rw [hreq] at hs hle hb ha
          refine ⟨f :: l1, l2, ?_, ?_, ha⟩
          · rw [List.cons_append, hs]
          · intro t ht
            rcases List.mem_cons.mp ht with rfl | ht
            · exact le_trans hle (le_refl _)
            · exact hb t ht
      rcases hsplit with ⟨l1, l2, hs, hb, ha⟩
      have hrmem : r ∈ st.tasks.filter (fun t => t.completed && t.getCompletionTime != none) := by
        rw [hL, hs]
        exact List.mem_append.mpr (Or.inr (List.mem_cons_self _ _))
      have hrmem2 := List.mem_filter.mp hrmem
      refine ⟨hrmem2.1, ?_, ?_, l1, l2, hs, hb, ha⟩
      · have hb2 := hrmem2.2
        simp only [Bool.and_eq_true, bne_iff_ne] at hb2
        exact hb2.2
      · intro t ht x hx
        have htL : t ∈ st.tasks.filter (fun t => t.completed && t.getCompletionTime != none) := by
          rw [List.mem_filter]
          exact ⟨ht, hPsome t (by rw [hx]; exact Option.some_ne_none x)⟩
        rw [hL, hs] at htL
        rw [← ctime_eq_of_some t x hx]
        rcases List.mem_append.mp htL with h1 | h2
        · exact hb t h1
        · rcases List.mem_cons.mp h2 with rfl | h3
          · exact le_refl _
          · exact le_of_lt (ha t h3)

/-- The two ties used by the C4 counterexample. -/
def exTieA : Task :=
  { id := "a", text := "first tie", completed := true,
    createdAt := 0, completedAt := some 5 }

def exTieB : Task :=
  { id := "b", text := "second tie", completed := true,
    createdAt := 0, completedAt := some 5 }

def exTieStore : TaskManager :=
  { tasks := [exTieA, exTieB], currentFilter := "all", storage := none }

/-- Counterexample to C4: two tasks tie for the minimum completion time (5
each); the query returns the second one, not the first one in iteration
order (the reducer keeps `current` when the comparison is not strict). -/
theorem fastestCompletedTask_tie_returns_last :
    exTieA.getCompletionTime = some 5 ∧ exTieB.getCompletionTime = some 5 ∧
    exTieStore.tasks = [exTieA, exTieB] ∧
    fastestCompletedTask exTieStore = some exTieB ∧ exTieB ≠ exTieA :=
  ⟨rfl, rfl, rfl, by decide, by decide⟩

/-- Witness for C4: the none case on a store with no completed task, and
the returned-task conclusions on the concrete tie store. -/
theorem fastestCompletedTask_spec_check :
    fastestCompletedTask exStoreA = none ∧
    exTieB ∈ exTieStore.tasks ∧ exTieB.getCompletionTime ≠ none :=
  ⟨(fastestCompletedTask_spec exStoreA).1 (by decide),
   ((fastestCompletedTask_spec exTieStore).2.2 exTieB (by decide)).1,
   ((fastestCompletedTask_spec exTieStore).2.2 exTieB (by decide)).2.1⟩

/-! ## The completion invariant on reachable stores (claim C8) -/

/-- After a toggle, `completedAt` is present exactly when the new
`completed` flag is true. -/
theorem completionInv_applyToggle (now : Int) (t : Task) :
    completionInv (applyToggle now t) := by
  unfold completionInv applyToggle
  cases t.completed <;> simp

/-- `toggleFirst` preserves the completion invariant elementwise. -/
theorem completionInv_toggleFirst (now : Int) (taskId : String) :
    ∀ ts : List Task, (∀ t ∈ ts, completionInv t) →
      ∀ t ∈ toggleFirst now taskId ts, completionInv t := by
  intro ts
  induction ts with
  | nil => intro _ t ht; simp [toggleFirst] at ht
  | cons hd tl ih =>
    intro hall t ht
    cases hbe : hd.id == taskId with
    | true =>
      simp only [toggleFirst, hbe, if_true] at ht
      rcases List.mem_cons.mp ht with rfl | ht
      · exact completionInv_applyToggle now hd
      · exact hall t (List.mem_cons_of_mem hd ht)
    | false =>
      simp only [toggleFirst, hbe, Bool.false_eq_true, if_false] at ht
      rcases List.mem_cons.mp ht with rfl | ht
      · exact hall t (List.mem_cons_self _ _)
      · exact ih (fun u hu => hall u (List.mem_cons_of_mem hd hu)) t ht

/-- Persisting a task list yields an invariant-satisfying state when every
task in the list satisfies the invariant. -/
theorem managerCompletionInv_save (st : TaskManager) (ts : List Task)
    (h : ∀ t ∈ ts, completionInv t) :
    managerCompletionInv (saveTasks { st with tasks := ts }) := by
  constructor
  · exact h
  · intro recs hrecs t ht
    simp only [saveTasks, Option.some.injEq, Snapshot.valid.injEq] at hrecs
    subst hrecs
    exact h t ht

/-- One step of any operation preserves the completion invariant. -/
theorem completionInv_step (env : Nat → String) (st : TaskManager) (k : Nat)
    (op : Op) (st2 : TaskManager) (k2 : Nat)
    (hinv : managerCompletionInv st)
    (hstep : applyOp env (st, k) op = Except.ok (st2, k2)) :
    managerCompletionInv st2 := by
  cases op with
  | addTask now text =>
    simp only [applyOp] at hstep
    by_cases htrim : jsTrim text = ""
    · rw [if_pos htrim] at hstep
      simp only [Except.ok.injEq, Prod.mk.injEq] at hstep
      obtain ⟨rfl, rfl⟩ := hstep
      exact hinv
    · rw [if_neg htrim] at hstep
      simp only [Except.ok.injEq, Prod.mk.injEq] at hstep
      obtain ⟨rfl, rfl⟩ := hstep
      unfold addTask
      rw [if_neg htrim]
      refine managerCompletionInv_save st _ ?_
      intro t ht
      rcases List.mem_append.mp ht with ht | ht
      · exact hinv.1 t ht
      · rcases List.mem_singleton.mp ht with rfl
        rfl
  | toggleTask now taskId =>
    simp only [applyOp, Except.ok.injEq, Prod.mk.injEq] at hstep
    obtain ⟨rfl, rfl⟩ := hstep
    cases hfind : st.tasks.find? (fun t => t.id == taskId) with
    | none =>
      unfold toggleTaskCompletion
      rw [hfind]
      exact hinv
    | some t =>
      rw [toggleTaskCompletion_found st now taskId t hfind]
      exact managerCompletionInv_save st _
        (completionInv_toggleFirst now taskId st.tasks hinv.1)
  | deleteTask taskId =>
    simp only [applyOp, Except.ok.injEq, Prod.mk.injEq] at hstep
    obtain ⟨rfl, rfl⟩ := hstep
    exact managerCompletionInv_save st _
      (fun t ht => hinv.1 t (List.mem_of_mem_filter ht))
  | clearCompleted =>
    simp only [applyOp, Except.ok.injEq, Prod.mk.injEq] at hstep
    obtain ⟨rfl, rfl⟩ := hstep
    exact managerCompletionInv_save st _
      (fun t ht => hinv.1 t (List.mem_of_mem_filter ht))
  | setFilter f =>
    simp only [applyOp, Except.ok.injEq, Prod.mk.injEq] at hstep
    obtain ⟨rfl, rfl⟩ := hstep
    exact hinv
  | save =>
    simp only [applyOp, Except.ok.injEq, Prod.mk.injEq] at hstep
    obtain ⟨rfl, rfl⟩ := hstep
    exact managerCompletionInv_save st st.tasks hinv.1
  | load =>
    simp only [applyOp] at hstep
    cases hsto : st.storage with
    | none =>
      rw [hsto] at hstep
      simp only [Except.ok.injEq, Prod.mk.injEq] at hstep
      obtain ⟨rfl, rfl⟩ := hstep
      exact hinv
    | some snap =>
      cases snap with
      | malformed =>
        rw [hsto] at hstep
        simp at hstep
      | valid recs =>
        rw [hsto] at hstep
        simp only [Except.ok.injEq, Prod.mk.injEq] at hstep
        obtain ⟨rfl, rfl⟩ := hstep
        have hrecs := hinv.2 recs hsto
        constructor
        · intro t ht
          rcases List.mem_map.mp ht with ⟨p, hp, rfl⟩
          have hp2 : p.2 ∈ recs := by
            have := List.mem_map_of_mem Prod.snd hp
            rwa [List.enum_map_snd] at this
          exact hrecs p.2 hp2
        · intro recs2 hrecs2 t ht
          simp only [Option.some.injEq, Snapshot.valid.injEq] at hrecs2
          subst hrecs2
          exact hrecs t ht

/-- The invariant holds along every run of operations. -/
theorem completionInv_applyOps (env : Nat → String) :
    ∀ (ops : List Op) (s s2 : TaskManager × Nat),
      managerCompletionInv s.1 → applyOps env s ops = Except.ok s2 →
      managerCompletionInv s2.1 := by
  intro ops
  induction ops with
  | nil =>
    intro s s2 h hstep
    simp only [applyOps, Except.ok.injEq] at hstep
    rw [← hstep]
    exact h
  | cons op ops ih =>
    intro s s2 h hstep
    simp only [applyOps] at hstep
    cases hone : applyOp env s op with
    | error e => rw [hone] at hstep; simp at hstep
    | ok s1 =>
      rw [hone] at hstep
      exact ih s1 s2 (completionInv_step env s.1 s.2 op s1.1 s1.2 h hone) hstep

/-- The invariant, phrased as the two iff statements of the claim. -/
theorem completionInv_iff (t : Task) (h : completionInv t) :
    (t.getCompletionTime ≠ none ↔ t.completed = true) ∧
    (t.completedAt ≠ none ↔ t.completed = true) := by
  unfold completionInv at h
  unfold Task.getCompletionTime
  cases hca : t.completedAt with
  | none =>
    rw [hca] at h
    simp only [Option.isSome_none] at h
    simp [← h]
  | some c =>
    rw [hca] at h
    simp only [Option.isSome_some] at h
    simp [← h]

/-- C8: in every store reachable from the empty store by the operations,
every task has a defined `completionTime()` iff it is completed;
equivalently, `completedAt` is present iff `completed` is true. -/
theorem reachable_completion_iff (st : TaskManager) (h : Reachable st) :
    ∀ t ∈ st.tasks, (t.getCompletionTime ≠ none ↔ t.completed = true) ∧
      (t.completedAt ≠ none ↔ t.completed = true) := by
  obtain ⟨env, ops, k, happ⟩ := h
  have hinv0 : managerCompletionInv initialManager := by
    constructor
    · intro t ht
      simp [initialManager] at ht
    · intro recs hrecs
      simp [initialManager] at hrecs
  have hinv := completionInv_applyOps env ops (initialManager, 0) (st, k) hinv0 happ
  intro t ht
  exact completionInv_iff t (hinv.1 t ht)

/-- The store reached by adding one task and toggling it, used by the C8
and C9 witnesses. -/
def exReachedTask : Task :=
  { id := "a", text := "hi", completed := true, createdAt := 0, completedAt := some 5 }

def exReachedStore : TaskManager :=
  { tasks := [exReachedTask], currentFilter := "all",
    storage := some (Snapshot.valid [exReachedTask]) }

/-- Witness for C8 on the concrete reachable store. -/
theorem reachable_completion_iff_check :
    (exReachedTask.getCompletionTime ≠ none ↔ exReachedTask.completed = true) ∧
    (exReachedTask.completedAt ≠ none ↔ exReachedTask.completed = true) :=
  reachable_completion_iff exReachedStore
    ⟨fun _ => "a", [Op.addTask 0 "hi", Op.toggleTask 5 "a"], 1, rfl⟩
    exReachedTask (by decide)

/-! ## Id uniqueness (claim C9) -/

/-- Toggling changes no id. -/
theorem idsOf_toggleFirst (now : Int) (taskId : String) :
    ∀ ts : List Task, idsOf (toggleFirst now taskId ts) = idsOf ts := by
  intro ts
  induction ts with
  | nil => rfl
  | cons hd tl ih =>
    cases hbe : hd.id == taskId with
    | true =>
      simp only [toggleFirst, hbe, if_true]
      simp only [idsOf, List.map_cons, applyToggle_id]
    | false =>
      simp only [toggleFirst, hbe, Bool.false_eq_true, if_false]
      simp only [idsOf, List.map_cons] at ih ⊢
      rw [ih]

/-- Persisting keeps the id invariant: the snapshot ids become the live ids. -/
theorem managerIdInv_save (env : Nat → String) (k : Nat) (st : TaskManager)
    (ts : List Task)
    (hts : (idsOf ts).Nodup ∧ ∀ i ∈ idsOf ts, ∃ j, j < k ∧ env j = i) :
    managerIdInv env k (saveTasks { st with tasks := ts }) := by
  refine ⟨hts, ?_⟩
  intro recs hrecs
  simp only [saveTasks, Option.some.injEq, Snapshot.valid.injEq] at hrecs
  subst hrecs
  exact hts

/-- One step of any operation preserves the id invariant and advances the
id-stream counter, provided the id stream never repeats. -/
theorem idInv_step (env : Nat → String) (hinj : Function.Injective env)
    (st : TaskManager) (k : Nat) (op : Op) (st2 : TaskManager) (k2 : Nat)
    (hinv : managerIdInv env k st)
    (hstep : applyOp env (st, k) op = Except.ok (st2, k2)) :
    k ≤ k2 ∧ managerIdInv env k2 st2 := by
  cases op with
  | addTask now text =>
    simp only [applyOp] at hstep
    by_cases htrim : jsTrim text = ""
    · rw [if_pos htrim] at hstep
      simp only [Except.ok.injEq, Prod.mk.injEq] at hstep
      obtain ⟨rfl, rfl⟩ := hstep
      exact ⟨le_refl k, hinv⟩
    · rw [if_neg htrim] at hstep
      simp only [Except.ok.injEq, Prod.mk.injEq] at hstep
      obtain ⟨rfl, rfl⟩ := hstep
      refine ⟨Nat.le_succ k, ?_⟩
      unfold addTask
      rw [if_neg htrim]
      refine managerIdInv_save env (k + 1) st _ ⟨?_, ?_⟩
      · have hids : idsOf (st.tasks ++
            [{ id := env k, text := jsTrim text, completed := false,
               createdAt := now, completedAt := none }]) =
            idsOf st.tasks ++ [env k] := by
          simp [idsOf]
        rw [hids, List.nodup_append]
        refine ⟨hinv.1.1, List.nodup_singleton _, ?_⟩
        intro i hi
        rcases hinv.1.2 i hi with ⟨j, hj, rfl⟩
        simp only [List.mem_singleton]
        intro heq
        have := hinj heq
        omega
      · intro i hi
        simp only [idsOf, List.map_append, List.map_cons, List.map_nil,
          List.mem_append, List.mem_singleton] at hi
        rcases hi with hi | rfl
        · rcases hinv.1.2 i hi with ⟨j, hj, hje⟩
          exact ⟨j, by omega, hje⟩
        · exact ⟨k, by omega, rfl⟩
  | toggleTask now taskId =>
    simp only [applyOp, Except.ok.injEq, Prod.mk.injEq] at hstep
    obtain ⟨rfl, rfl⟩ := hstep
    refine ⟨le_refl k, ?_⟩
    cases hfind : st.tasks.find? (fun t => t.id == taskId) with
    | none =>
      unfold toggleTaskCompletion
      rw [hfind]
      exact hinv
    | some t =>
      rw [toggleTaskCompletion_found st now taskId t hfind]
      refine managerIdInv_save env k st _ ?_
      rw [idsOf_toggleFirst]
      exact hinv.1
  | deleteTask taskId =>
    simp only [applyOp, Except.ok.injEq, Prod.mk.injEq] at hstep
    obtain ⟨rfl, rfl⟩ := hstep
    refine ⟨le_refl k, ?_⟩
    refine managerIdInv_save env k st _ ⟨?_, ?_⟩
    · exact ((List.filter_sublist st.tasks).map Task.id).nodup hinv.1.1
    · intro i hi
      exact hinv.1.2 i (((List.filter_sublist st.tasks).map Task.id).subset hi)
  | clearCompleted =>
    simp only [applyOp, Except.ok.injEq, Prod.mk.injEq] at hstep
    obtain ⟨rfl, rfl⟩ := hstep
    refine ⟨le_refl k, ?_⟩
    refine managerIdInv_save env k st _ ⟨?_, ?_⟩
    · exact ((List.filter_sublist st.tasks).map Task.id).nodup hinv.1.1
    · intro i hi
      exact hinv.1.2 i (((List.filter_sublist st.tasks).map Task.id).subset hi)
  | setFilter f =>
    simp only [applyOp, Except.ok.injEq, Prod.mk.injEq] at hstep
    obtain ⟨rfl, rfl⟩ := hstep
    exact ⟨le_refl k, hinv⟩
  | save =>
    simp only [applyOp, Except.ok.injEq, Prod.mk.injEq] at hstep
    obtain ⟨rfl, rfl⟩ := hstep
    exact ⟨le_refl k, managerIdInv_save env k st st.tasks hinv.1⟩
  | load =>
    simp only [applyOp] at hstep
    cases hsto : st.storage with
    | none =>
      rw [hsto] at hstep
      simp only [Except.ok.injEq, Prod.mk.injEq] at hstep
      obtain ⟨rfl, rfl⟩ := hstep
      exact ⟨le_refl k, hinv⟩
    | some snap =>
      cases snap with
      | malformed =>
        rw [hsto] at hstep
        simp at hstep
      | valid recs =>
        rw [hsto] at hstep
        simp only [Except.ok.injEq, Prod.mk.injEq] at hstep
        obtain ⟨rfl, rfl⟩ := hstep
        refine ⟨Nat.le_add_right k recs.length, ?_, ?_⟩
        · have hids : idsOf (recs.enum.map
              (fun p => { p.2 with id := env (k + p.1) })) =
              (List.range recs.length).map (fun i => env (k + i)) :=
            map_id_reload (fun i => env (k + i)) recs
          constructor
          · rw [hids]
            refine List.Nodup.map ?_ (List.nodup_range recs.length)
            intro a b hab
            have := hinj hab
            omega
          · intro i hi
            rw [hids] at hi
            rcases List.mem_map.mp hi with ⟨i0, hi0, rfl⟩
            have hi0len := List.mem_range.mp hi0
            exact ⟨k + i0, by omega, rfl⟩
        · intro recs2 hrecs2
          simp only [Option.some.injEq, Snapshot.valid.injEq] at hrecs2
          subst hrecs2
          rcases hinv.2 recs hsto with ⟨hnd, hbound⟩
          refine ⟨hnd, ?_⟩
          intro i hi
          rcases hbound i hi with ⟨j, hj, hje⟩
          exact ⟨j, by omega, hje⟩

/-- The id invariant holds along every run of operations when the id stream
is injective. -/
theorem idInv_applyOps (env : Nat → String) (hinj : Function.Injective env) :
    ∀ (ops : List Op) (s s2 : TaskManager × Nat),
      managerIdInv env s.2 s.1 → applyOps env s ops = Except.ok s2 →
      managerIdInv env s2.2 s2.1 := by
  intro ops
  induction ops with
  | nil =>
    intro s s2 h hstep
    simp only [applyOps, Except.ok.injEq] at hstep
    rw [← hstep]
    exact h
  | cons op ops ih =>
    intro s s2 h hstep
    simp only [applyOps] at hstep
    cases hone : applyOp env s op with
    | error e => rw [hone] at hstep; simp at hstep
    | ok s1 =>
      rw [hone] at hstep
      exact ih s1 s2 (idInv_step env hinj s.1 s.2 op s1.1 s1.2 h hone).2 hstep

/-- C9 as amended: in every store reachable from the empty store, no two
tasks share an id PROVIDED the id-generation environment (the stream of
`Date.now().toString(36) + Math.random().toString(36).substr(2)` strings the
`Task` constructor consumes) never produces the same string twice.  The
construction itself does not guarantee distinctness: with a repeating
stream, duplicate ids are reachable (see the counterexample). -/
theorem reachable_ids_nodup (env : Nat → String) (hinj : Function.Injective env)
    (ops : List Op) (st : TaskManager) (k : Nat)
    (h : applyOps env (initialManager, 0) ops = Except.ok (st, k)) :
    (idsOf st.tasks).Nodup := by
  have hinv0 : managerIdInv env 0 initialManager := by
    refine ⟨⟨List.nodup_nil, ?_⟩, ?_⟩
    · intro i hi
      simp [initialManager, idsOf] at hi
    · intro recs hrecs
      simp [initialManager] at hrecs
  exact (idInv_applyOps env hinj ops (initialManager, 0) (st, k) hinv0 h).1.1

/-- The duplicated-id store reached when the generator repeats. -/
def exDupStore : TaskManager :=
  { tasks :=
      [{ id := "dup", text := "hi", completed := false,
         createdAt := 0, completedAt := none },
       { id := "dup", text := "there", completed := false,
         createdAt := 0, completedAt := none }],
    currentFilter := "all",
    storage := some (Snapshot.valid
      [{ id := "dup", text := "hi", completed := false,
         createdAt := 0, completedAt := none },
       { id := "dup", text := "there", completed := false,
         createdAt := 0, completedAt := none }]) }

/-- Counterexample to C9 as stated: when the environment yields the same
generated string twice (same clock millisecond and same `Math.random()`
digits), two `addTask` calls produce a reachable store whose two tasks share
the id `"dup"`. -/
theorem duplicate_ids_reachable :
    applyOps (fun _ => "dup") (initialManager, 0)
        [Op.addTask 0 "hi", Op.addTask 0 "there"] =
      Except.ok (exDupStore, 2) ∧
    exDupStore.tasks.map Task.id = ["dup", "dup"] ∧
    ¬ (idsOf exDupStore.tasks).Nodup :=
  ⟨rfl, rfl, by decide⟩

/-- An injective id stream for the C9 witness. -/
def natName : Nat → String := fun n => String.mk (List.replicate n 'a')

theorem natName_injective : Function.Injective natName := by
  intro a b h
  have h2 : List.replicate a 'a' = List.replicate b 'a' := congrArg String.data h
  have h3 := congrArg List.length h2
  simpa using h3

/-- The store reached by two adds under the injective stream. -/
def exNodupStore : TaskManager :=
  { tasks :=
      [{ id := natName 0, text := "hi", completed := false,
         createdAt := 0, completedAt := none },
       { id := natName 1, text := "there", completed := false,
         createdAt := 0, completedAt := none }],
    currentFilter := "all",
    storage := some (Snapshot.valid
      [{ id := natName 0, text := "hi", completed := false,
         createdAt := 0, completedAt := none },
       { id := natName 1, text := "there", completed := false,
         createdAt := 0, completedAt := none }]) }

/-- Witness for C9 (amended): a run under an injective id stream ends with
duplicate-free ids. -/
theorem reachable_ids_nodup_check : (idsOf exNodupStore.tasks).Nodup :=
  reachable_ids_nodup natName natName_injective
    [Op.addTask 0 "hi", Op.addTask 0 "there"] exNodupStore 2 rfl

end Todo
